import Mathlib

/-!
Verification of the gradient-colored disjoint shape renderer
(`borb/pdf/canvas/layout/shape/gradient_colored_disjoint_shape.py`).

Coordinates and color components are idealized as real numbers (the source
uses `Decimal` and `math.sqrt`).  The renderer `render` below is a direct
transcription of `_do_layout_without_padding`; helpers that live in the base
classes (`DisjointShape.scale_to_fit`, `move_to`, `get_width`, `get_height`)
and the color conversions (`HSVColor.from_rgb`, `to_rgb`) are modelled from
the specification, as flagged on each definition.
-/

/-- A 2D point with real coordinates. -/
structure Point where
  x : ℝ
  y : ℝ

/-- A line segment: an ordered pair of points (`l[0]` and `l[1]` in the
source); `p0` is the start point used as reference for distance. -/
structure Seg where
  p0 : Point
  p1 : Point

/-- An RGB color, components idealized as reals (valid colors lie in [0,1]). -/
structure RGB where
  r : ℝ
  g : ℝ
  b : ℝ

/-- An HSV color: hue in degrees, saturation and value in [0,1]. -/
structure HSV where
  h : ℝ
  s : ℝ
  v : ℝ

/-- An axis-aligned rectangle, origin plus width/height. -/
structure Rectangle where
  x : ℝ
  y : ℝ
  width : ℝ
  height : ℝ

/-- Modelled from the spec: `HSVColor.from_rgb` is not under `src/`.
The hue of the standard RGB→HSV conversion, before wrapping negative values
into [0,360): 0 in the achromatic case, otherwise keyed on which channel
attains the maximum. -/
noncomputable def hueRaw (r g b : ℝ) : ℝ :=
  if max r (max g b) - min r (min g b) = 0 then 0
  else if max r (max g b) = r then
    60 * (g - b) / (max r (max g b) - min r (min g b))
  else if max r (max g b) = g then
    60 * (2 + (b - r) / (max r (max g b) - min r (min g b)))
  else
    60 * (4 + (r - g) / (max r (max g b) - min r (min g b)))

/-- Modelled from the spec: hue in [0,360) degrees, wrapping the raw hue. -/
noncomputable def hueOf (r g b : ℝ) : ℝ :=
  if hueRaw r g b < 0 then hueRaw r g b + 360 else hueRaw r g b

/-- Modelled from the spec: saturation of the standard RGB→HSV conversion
(0 when the maximum channel is 0). -/
noncomputable def satOf (r g b : ℝ) : ℝ :=
  if max r (max g b) = 0 then 0
  else (max r (max g b) - min r (min g b)) / max r (max g b)

/-- Value of the standard RGB→HSV conversion: the maximum channel. -/
def valOf (r g b : ℝ) : ℝ := max r (max g b)

/-- Modelled from the spec: `HSVColor.from_rgb`, the standard RGB→HSV
conversion with hue in [0,360), defaulting hue to 0 in the achromatic case. -/
noncomputable def rgbToHsv (c : RGB) : HSV :=
  ⟨hueOf c.r c.g c.b, satOf c.r c.g c.b, valOf c.r c.g c.b⟩

/-- Modelled from the spec: `HSVColor.to_rgb`, the standard sector-based
HSV→RGB conversion (sector index = hue/60). -/
noncomputable def hsvToRgb (c : HSV) : RGB :=
  if c.h / 60 < 1 then
    ⟨c.v, c.v * (1 - c.s * (1 - c.h / 60)), c.v * (1 - c.s)⟩
  else if c.h / 60 < 2 then
    ⟨c.v * (1 - c.s * (c.h / 60 - 1)), c.v, c.v * (1 - c.s)⟩
  else if c.h / 60 < 3 then
    ⟨c.v * (1 - c.s), c.v, c.v * (1 - c.s * (1 - (c.h / 60 - 2)))⟩
  else if c.h / 60 < 4 then
    ⟨c.v * (1 - c.s), c.v * (1 - c.s * (c.h / 60 - 3)), c.v⟩
  else if c.h / 60 < 5 then
    ⟨c.v * (1 - c.s * (1 - (c.h / 60 - 4))), c.v * (1 - c.s), c.v⟩
  else
    ⟨c.v, c.v * (1 - c.s), c.v * (1 - c.s * (c.h / 60 - 5))⟩

/-- A color is a valid RGB color when all components lie in [0,1]. -/
def validRGB (c : RGB) : Prop :=
  0 ≤ c.r ∧ c.r ≤ 1 ∧ 0 ≤ c.g ∧ c.g ≤ 1 ∧ 0 ≤ c.b ∧ c.b ≤ 1

/-- Sector-1 evaluation of `hsvToRgb` (hue/60 below 1). -/
theorem hsvToRgb_sector1 (h s v : ℝ) (h1 : h / 60 < 1) :
    hsvToRgb ⟨h, s, v⟩ = ⟨v, v * (1 - s * (1 - h / 60)), v * (1 - s)⟩ := by
  simp only [hsvToRgb]
  rw [if_pos h1]

/-- Sector-2 evaluation of `hsvToRgb` (hue/60 in [1,2)). -/
theorem hsvToRgb_sector2 (h s v : ℝ) (h1 : ¬ h / 60 < 1) (h2 : h / 60 < 2) :
    hsvToRgb ⟨h, s, v⟩ = ⟨v * (1 - s * (h / 60 - 1)), v, v * (1 - s)⟩ := by
  simp only [hsvToRgb]
  rw [if_neg h1, if_pos h2]

/-- Sector-3 evaluation of `hsvToRgb` (hue/60 in [2,3)). -/
theorem hsvToRgb_sector3 (h s v : ℝ) (h1 : ¬ h / 60 < 1) (h2 : ¬ h / 60 < 2)
    (h3 : h / 60 < 3) :
    hsvToRgb ⟨h, s, v⟩ = ⟨v * (1 - s), v, v * (1 - s * (1 - (h / 60 - 2)))⟩ := by
  simp only [hsvToRgb]
  rw [if_neg h1, if_neg h2, if_pos h3]

/-- Sector-4 evaluation of `hsvToRgb` (hue/60 in [3,4)). -/
theorem hsvToRgb_sector4 (h s v : ℝ) (h1 : ¬ h / 60 < 1) (h2 : ¬ h / 60 < 2)
    (h3 : ¬ h / 60 < 3) (h4 : h / 60 < 4) :
    hsvToRgb ⟨h, s, v⟩ = ⟨v * (1 - s), v * (1 - s * (h / 60 - 3)), v⟩ := by
  simp only [hsvToRgb]
  rw [if_neg h1, if_neg h2, if_neg h3, if_pos h4]

/-- Sector-5 evaluation of `hsvToRgb` (hue/60 in [4,5)). -/
theorem hsvToRgb_sector5 (h s v : ℝ) (h1 : ¬ h / 60 < 1) (h2 : ¬ h / 60 < 2)
    (h3 : ¬ h / 60 < 3) (h4 : ¬ h / 60 < 4) (h5 : h / 60 < 5) :
    hsvToRgb ⟨h, s, v⟩ = ⟨v * (1 - s * (1 - (h / 60 - 4))), v * (1 - s), v⟩ := by
  simp only [hsvToRgb]
  rw [if_neg h1, if_neg h2, if_neg h3, if_neg h4, if_pos h5]

/-- Sector-6 evaluation of `hsvToRgb` (hue/60 at least 5). -/
theorem hsvToRgb_sector6 (h s v : ℝ) (h1 : ¬ h / 60 < 1) (h2 : ¬ h / 60 < 2)
    (h3 : ¬ h / 60 < 3) (h4 : ¬ h / 60 < 4) (h5 : ¬ h / 60 < 5) :
    hsvToRgb ⟨h, s, v⟩ = ⟨v, v * (1 - s), v * (1 - s * (h / 60 - 5))⟩ := by
  simp only [hsvToRgb]
  rw [if_neg h1, if_neg h2, if_neg h3, if_neg h4, if_neg h5]

/-- Round trip in the achromatic case: equal channels survive RGB→HSV→RGB. -/
theorem roundTrip_achromatic (r : ℝ) : hsvToRgb (rgbToHsv ⟨r, r, r⟩) = ⟨r, r, r⟩ := by
  have hraw : hueRaw r r r = 0 := by
    unfold hueRaw
    simp only [max_self, min_self, sub_self, if_true, eq_self_iff_true]
  have hhue : hueOf r r r = 0 := by
    unfold hueOf
    rw [hraw]
    norm_num
  have hsat : satOf r r r = 0 := by
    unfold satOf
    simp only [max_self, min_self, sub_self]
    split_ifs with h
    · rfl
    · exact zero_div r
  have hval : valOf r r r = r := by
    unfold valOf
    simp only [max_self]
  simp only [rgbToHsv, hhue, hsat, hval]
  rw [hsvToRgb_sector1 _ _ _ (by norm_num)]
  simp only [RGB.mk.injEq, eq_self_iff_true, true_and]
  exact ⟨by ring, by ring⟩

/-- Round trip when the red channel is the maximum and green is at least
blue (hue sector 0/1). -/
theorem roundTrip_maxR_hi (r g b : ℝ) (hb : 0 ≤ b) (hbg : b ≤ g) (hgr : g ≤ r)
    (hbr : b < r) : hsvToRgb (rgbToHsv ⟨r, g, b⟩) = ⟨r, g, b⟩ := by
  have hr0 : 0 < r := lt_of_le_of_lt hb hbr
  have hrne : r ≠ 0 := ne_of_gt hr0
  have hmax : max r (max g b) = r := by rw [max_eq_left hbg, max_eq_left hgr]
  have hmin : min r (min g b) = b := by
    rw [min_eq_right hbg, min_eq_right (le_of_lt hbr)]
  have hd : r - b ≠ 0 := sub_ne_zero.mpr (ne_of_gt hbr)
  have hdpos : 0 < r - b := sub_pos.mpr hbr
  have hraw : hueRaw r g b = 60 * (g - b) / (r - b) := by
    unfold hueRaw
    simp only [hmax, hmin, eq_self_iff_true, if_true]
    rw [if_neg hd]
  have hraw0 : 0 ≤ hueRaw r g b := by
    rw [hraw]
    apply div_nonneg (by linarith) (le_of_lt hdpos)
  have hhue : hueOf r g b = 60 * (g - b) / (r - b) := by
    unfold hueOf
    rw [if_neg (not_lt.mpr hraw0), hraw]
  have hsat : satOf r g b = (r - b) / r := by
    unfold satOf
    simp only [hmax, hmin]
    rw [if_neg hrne]
  have hval : valOf r g b = r := hmax
  have hq : 60 * (g - b) / (r - b) / 60 = (g - b) / (r - b) := by ring
  rcases eq_or_lt_of_le hgr with heq | hlt
  · -- g = r : hue/60 equals 1, sector 2
    subst heq
    have hq2 : 60 * (g - b) / (g - b) / 60 = 1 := by
      rw [hq, div_self hd]
    simp only [rgbToHsv, hhue, hsat, hval]
    rw [hsvToRgb_sector2 _ _ _ (by rw [hq2]; norm_num) (by rw [hq2]; norm_num)]
    simp only [RGB.mk.injEq]
    refine ⟨by rw [hq2]; ring, trivial, by field_simp⟩
  · -- g < r : sector 1
    have hq1 : (g - b) / (r - b) < 1 := (div_lt_one hdpos).mpr (by linarith)
    simp only [rgbToHsv, hhue, hsat, hval]
    rw [hsvToRgb_sector1 _ _ _ (by rw [hq]; exact hq1)]
    simp only [RGB.mk.injEq, eq_self_iff_true, true_and]
    constructor
    · rw [hq]
      field_simp
      ring
    · field_simp

/-- Round trip when the red channel is the maximum and blue exceeds green
(hue sector 5, wrapped negative raw hue). -/
theorem roundTrip_maxR_lo (r g b : ℝ) (hg : 0 ≤ g) (hgb : g < b) (hbr : b ≤ r) :
    hsvToRgb (rgbToHsv ⟨r, g, b⟩) = ⟨r, g, b⟩ := by
  have hr0 : 0 < r := lt_of_le_of_lt hg (lt_of_lt_of_le hgb hbr)
  have hrne : r ≠ 0 := ne_of_gt hr0
  have hgr : g < r := lt_of_lt_of_le hgb hbr
  have hmax : max r (max g b) = r := by
    rw [max_eq_right (le_of_lt hgb), max_eq_left hbr]
  have hmin : min r (min g b) = g := by
    rw [min_eq_left (le_of_lt hgb), min_eq_right (le_of_lt hgr)]
  have hd : r - g ≠ 0 := sub_ne_zero.mpr (ne_of_gt hgr)
  have hdpos : 0 < r - g := sub_pos.mpr hgr
  have hraw : hueRaw r g b = 60 * (g - b) / (r - g) := by
    unfold hueRaw
    simp only [hmax, hmin, eq_self_iff_true, if_true]
    rw [if_neg hd]
  have hrawneg : hueRaw r g b < 0 := by
    rw [hraw]
    apply div_neg_of_neg_of_pos (by linarith) hdpos
  have hhue : hueOf r g b = 60 * (g - b) / (r - g) + 360 := by
    unfold hueOf
    rw [if_pos hrawneg, hraw]
  have hsat : satOf r g b = (r - g) / r := by
    unfold satOf
    simp only [hmax, hmin]
    rw [if_neg hrne]
  have hval : valOf r g b = r := hmax
  have hq : (60 * (g - b) / (r - g) + 360) / 60 = (g - b) / (r - g) + 6 := by ring
  have hge5 : (5 : ℝ) ≤ (g - b) / (r - g) + 6 := by
    have : (-1 : ℝ) ≤ (g - b) / (r - g) := by
      rw [le_div_iff₀ hdpos]
      linarith
    linarith
  simp only [rgbToHsv, hhue, hsat, hval]
  rw [hsvToRgb_sector6 _ _ _ (by rw [hq]; linarith) (by rw [hq]; linarith)
    (by rw [hq]; linarith) (by rw [hq]; linarith) (by rw [hq]; linarith)]
  simp only [RGB.mk.injEq, eq_self_iff_true, true_and]
  constructor
  · field_simp
  · rw [hq]
    field_simp
    ring

/-- Round trip when the green channel is the strict maximum and blue is at
most red (hue sector 1/2). -/
theorem roundTrip_maxG_lo (r g b : ℝ) (hb : 0 ≤ b) (hbr : b ≤ r) (hrg : r < g) :
    hsvToRgb (rgbToHsv ⟨r, g, b⟩) = ⟨r, g, b⟩ := by
  have hbg : b ≤ g := hbr.trans (le_of_lt hrg)
  have hbg2 : b < g := lt_of_le_of_lt hbr hrg
  have hg0 : 0 < g := lt_of_le_of_lt hb hbg2
  have hgne : g ≠ 0 := ne_of_gt hg0
  have hmax : max r (max g b) = g := by
    rw [max_eq_left hbg, max_eq_right (le_of_lt hrg)]
  have hmin : min r (min g b) = b := by
    rw [min_eq_right hbg, min_eq_right hbr]
  have hd : g - b ≠ 0 := sub_ne_zero.mpr (ne_of_gt hbg2)
  have hdpos : 0 < g - b := sub_pos.mpr hbg2
  have hraw : hueRaw r g b = 60 * (2 + (b - r) / (g - b)) := by
    unfold hueRaw
    simp only [hmax, hmin, eq_self_iff_true, if_true]
    rw [if_neg hd, if_neg (ne_of_gt hrg)]
  have hm1 : (-1 : ℝ) ≤ (b - r) / (g - b) := by
    rw [le_div_iff₀ hdpos]
    linarith
  have hraw0 : 0 ≤ hueRaw r g b := by
    rw [hraw]
    linarith
  have hhue : hueOf r g b = 60 * (2 + (b - r) / (g - b)) := by
    unfold hueOf
    rw [if_neg (not_lt.mpr hraw0), hraw]
  have hsat : satOf r g b = (g - b) / g := by
    unfold satOf
    simp only [hmax, hmin]
    rw [if_neg hgne]
  have hval : valOf r g b = g := hmax
  have hq : 60 * (2 + (b - r) / (g - b)) / 60 = (b - r) / (g - b) + 2 := by ring
  rcases eq_or_lt_of_le hbr with heq | hlt
  · -- b = r : hue/60 equals 2, sector 3
    subst heq
    have hq3 : 60 * (2 + (b - b) / (g - b)) / 60 = 2 := by
      rw [hq, sub_self, zero_div]
      norm_num
    simp only [rgbToHsv, hhue, hsat, hval]
    rw [hsvToRgb_sector3 _ _ _ (by rw [hq3]; norm_num) (by rw [hq3]; norm_num)
      (by rw [hq3]; norm_num)]
    simp only [RGB.mk.injEq]
    refine ⟨by field_simp, trivial, by rw [hq3]; field_simp⟩
  · -- b < r : sector 2
    have hgt1 : (1 : ℝ) < (b - r) / (g - b) + 2 := by
      have : (-1 : ℝ) < (b - r) / (g - b) := by
        rw [lt_div_iff₀ hdpos]
        linarith
      linarith
    have hlt2 : (b - r) / (g - b) + 2 < 2 := by
      have : (b - r) / (g - b) < 0 := div_neg_of_neg_of_pos (by linarith) hdpos
      linarith
    simp only [rgbToHsv, hhue, hsat, hval]
    rw [hsvToRgb_sector2 _ _ _ (by rw [hq]; linarith) (by rw [hq]; linarith)]
    simp only [RGB.mk.injEq]
    refine ⟨?_, trivial, by field_simp⟩
    rw [hq]
    field_simp
    ring

/-- Round trip when the green channel is the maximum and blue exceeds red
(hue sector 2/3). -/
theorem roundTrip_maxG_hi (r g b : ℝ) (hr : 0 ≤ r) (hrb : r < b) (hbg : b ≤ g) :
    hsvToRgb (rgbToHsv ⟨r, g, b⟩) = ⟨r, g, b⟩ := by
  have hrg : r < g := lt_of_lt_of_le hrb hbg
  have hg0 : 0 < g := lt_of_le_of_lt hr hrg
  have hgne : g ≠ 0 := ne_of_gt hg0
  have hmax : max r (max g b) = g := by
    rw [max_eq_left hbg, max_eq_right (le_of_lt hrg)]
  have hmin : min r (min g b) = r := by
    rw [min_eq_right hbg, min_eq_left (le_of_lt hrb)]
  have hd : g - r ≠ 0 := sub_ne_zero.mpr (ne_of_gt hrg)
  have hdpos : 0 < g - r := sub_pos.mpr hrg
  have hraw : hueRaw r g b = 60 * (2 + (b - r) / (g - r)) := by
    unfold hueRaw
    simp only [hmax, hmin, eq_self_iff_true, if_true]
    rw [if_neg hd, if_neg (ne_of_gt hrg)]
  have hqpos : 0 < (b - r) / (g - r) := div_pos (by linarith) hdpos
  have hraw0 : 0 ≤ hueRaw r g b := by
    rw [hraw]
    linarith
  have hhue : hueOf r g b = 60 * (2 + (b - r) / (g - r)) := by
    unfold hueOf
    rw [if_neg (not_lt.mpr hraw0), hraw]
  have hsat : satOf r g b = (g - r) / g := by
    unfold satOf
    simp only [hmax, hmin]
    rw [if_neg hgne]
  have hval : valOf r g b = g := hmax
  have hq : 60 * (2 + (b - r) / (g - r)) / 60 = (b - r) / (g - r) + 2 := by ring
  rcases eq_or_lt_of_le hbg with heq | hlt
  · -- b = g : hue/60 equals 3, sector 4
    subst heq
    have hq3 : 60 * (2 + (b - r) / (b - r)) / 60 = 3 := by
      rw [div_self hd]
      norm_num
    simp only [rgbToHsv, hhue, hsat, hval]
    rw [hsvToRgb_sector4 _ _ _ (by rw [hq3]; norm_num) (by rw [hq3]; norm_num)
      (by rw [hq3]; norm_num) (by rw [hq3]; norm_num)]
    simp only [RGB.mk.injEq]
    refine ⟨by field_simp, by rw [hq3]; ring, trivial⟩
  · -- b < g : sector 3
    have hlt1 : (b - r) / (g - r) < 1 := by
      rw [div_lt_one hdpos]
      linarith
    simp only [rgbToHsv, hhue, hsat, hval]
    rw [hsvToRgb_sector3 _ _ _ (by rw [hq]; linarith) (by rw [hq]; linarith)
      (by rw [hq]; linarith)]
    simp only [RGB.mk.injEq]
    refine ⟨by field_simp, trivial, ?_⟩
    rw [hq]
    field_simp
    ring

/-- Round trip when the blue channel is the strict maximum and red is below
green (hue sector 3/4). -/
theorem roundTrip_maxB_hi (r g b : ℝ) (hr : 0 ≤ r) (hrg : r < g) (hgb : g < b) :
    hsvToRgb (rgbToHsv ⟨r, g, b⟩) = ⟨r, g, b⟩ := by
  have hrb : r < b := hrg.trans hgb
  have hb0 : 0 < b := lt_of_le_of_lt hr hrb
  have hbne : b ≠ 0 := ne_of_gt hb0
  have hmax : max r (max g b) = b := by
    rw [max_eq_right (le_of_lt hgb), max_eq_right (le_of_lt hrb)]
  have hmin : min r (min g b) = r := by
    rw [min_eq_left (le_of_lt hgb), min_eq_left (le_of_lt hrg)]
  have hd : b - r ≠ 0 := sub_ne_zero.mpr (ne_of_gt hrb)
  have hdpos : 0 < b - r := sub_pos.mpr hrb
  have hraw : hueRaw r g b = 60 * (4 + (r - g) / (b - r)) := by
    unfold hueRaw
    simp only [hmax, hmin]
    rw [if_neg hd, if_neg (ne_of_gt hrb), if_neg (ne_of_gt hgb)]
  have hm1 : (-1 : ℝ) ≤ (r - g) / (b - r) := by
    rw [le_div_iff₀ hdpos]
    linarith
  have hraw0 : 0 ≤ hueRaw r g b := by
    rw [hraw]
    linarith
  have hhue : hueOf r g b = 60 * (4 + (r - g) / (b - r)) := by
    unfold hueOf
    rw [if_neg (not_lt.mpr hraw0), hraw]
  have hsat : satOf r g b = (b - r) / b := by
    unfold satOf
    simp only [hmax, hmin]
    rw [if_neg hbne]
  have hval : valOf r g b = b := hmax
  have hq : 60 * (4 + (r - g) / (b - r)) / 60 = (r - g) / (b - r) + 4 := by ring
  have hneg : (r - g) / (b - r) < 0 := div_neg_of_neg_of_pos (by linarith) hdpos
  simp only [rgbToHsv, hhue, hsat, hval]
  rw [hsvToRgb_sector4 _ _ _ (by rw [hq]; linarith) (by rw [hq]; linarith)
    (by rw [hq]; linarith) (by rw [hq]; linarith)]
  simp only [RGB.mk.injEq]
  refine ⟨by field_simp, ?_, trivial⟩
  rw [hq]
  field_simp
  ring

/-- Round trip when the blue channel is the strict maximum and green is at
most red (hue sector 4). -/
theorem roundTrip_maxB_lo (r g b : ℝ) (hg : 0 ≤ g) (hgr : g ≤ r) (hrb : r < b) :
    hsvToRgb (rgbToHsv ⟨r, g, b⟩) = ⟨r, g, b⟩ := by
  have hgb : g < b := lt_of_le_of_lt hgr hrb
  have hb0 : 0 < b := lt_of_le_of_lt (hg.trans hgr) hrb
  have hbne : b ≠ 0 := ne_of_gt hb0
  have hmax : max r (max g b) = b := by
    rw [max_eq_right (le_of_lt hgb), max_eq_right (le_of_lt hrb)]
  have hmin : min r (min g b) = g := by
    rw [min_eq_left (le_of_lt hgb), min_eq_right hgr]
  have hd : b - g ≠ 0 := sub_ne_zero.mpr (ne_of_gt hgb)
  have hdpos : 0 < b - g := sub_pos.mpr hgb
  have hraw : hueRaw r g b = 60 * (4 + (r - g) / (b - g)) := by
    unfold hueRaw
    simp only [hmax, hmin]
    rw [if_neg hd, if_neg (ne_of_gt hrb), if_neg (ne_of_gt hgb)]
  have hq0 : 0 ≤ (r - g) / (b - g) := div_nonneg (by linarith) (le_of_lt hdpos)
  have hraw0 : 0 ≤ hueRaw r g b := by
    rw [hraw]
    linarith
  have hhue : hueOf r g b = 60 * (4 + (r - g) / (b - g)) := by
    unfold hueOf
    rw [if_neg (not_lt.mpr hraw0), hraw]
  have hsat : satOf r g b = (b - g) / b := by
    unfold satOf
    simp only [hmax, hmin]
    rw [if_neg hbne]
  have hval : valOf r g b = b := hmax
  have hq : 60 * (4 + (r - g) / (b - g)) / 60 = (r - g) / (b - g) + 4 := by ring
  have hlt1 : (r - g) / (b - g) < 1 := by
    rw [div_lt_one hdpos]
    linarith
  simp only [rgbToHsv, hhue, hsat, hval]
  rw [hsvToRgb_sector5 _ _ _ (by rw [hq]; linarith) (by rw [hq]; linarith)
    (by rw [hq]; linarith) (by rw [hq]; linarith) (by rw [hq]; linarith)]
  simp only [RGB.mk.injEq]
  refine ⟨?_, by field_simp, trivial⟩
  rw [hq]
  field_simp
  ring

/-- The modelled RGB→HSV→RGB conversion round-trips exactly on any color
with nonnegative components (in particular on every valid color). -/
theorem hsv_rgb_roundTrip (c : RGB) (h1 : 0 ≤ c.r) (h2 : 0 ≤ c.g) (h3 : 0 ≤ c.b) :
    hsvToRgb (rgbToHsv c) = c := by
  obtain ⟨r, g, b⟩ := c
  rcases le_or_lt g r with hgr | hrg
  · rcases le_or_lt b r with hbr2 | hrb
    · rcases le_or_lt b g with hbg | hgb
      · rcases eq_or_lt_of_le hbr2 with heq | hlt
        · have hgr2 : g = r := le_antisymm hgr (heq ▸ hbg)
          subst heq
          subst hgr2
          exact roundTrip_achromatic _
        · exact roundTrip_maxR_hi r g b h3 hbg hgr hlt
      · exact roundTrip_maxR_lo r g b h2 hgb hbr2
    · exact roundTrip_maxB_lo r g b h2 hgr hrb
  · rcases le_or_lt b g with hbg | hgb
    · rcases le_or_lt b r with hbr2 | hrb
      · exact roundTrip_maxG_lo r g b h3 hbr2 hrg
      · exact roundTrip_maxG_hi r g b h1 hrb hbg
    · exact roundTrip_maxB_hi r g b h1 hrg hgb

/-- Python's `min` over a (nonempty) list of reals; 0 on the empty list,
which the renderer never queries. -/
noncomputable def listMin : List ℝ → ℝ
  | [] => 0
  | [x] => x
  | x :: y :: ys => min x (listMin (y :: ys))

/-- Python's `max` over a (nonempty) list of reals; 0 on the empty list,
which the renderer never queries. -/
noncomputable def listMax : List ℝ → ℝ
  | [] => 0
  | [x] => x
  | x :: y :: ys => max x (listMax (y :: ys))

/-- All x-coordinates of both endpoints of every segment, in order. -/
def xCoords : List Seg → List ℝ
  | [] => []
  | l :: ls => l.p0.x :: l.p1.x :: xCoords ls

/-- All y-coordinates of both endpoints of every segment, in order. -/
def yCoords : List Seg → List ℝ
  | [] => []
  | l :: ls => l.p0.y :: l.p1.y :: yCoords ls

/-- Modelled from the spec: `DisjointShape.get_width` is not under `src/`;
the shape's bounding width over all segment endpoints. -/
noncomputable def shapeWidth (lines : List Seg) : ℝ :=
  listMax (xCoords lines) - listMin (xCoords lines)

/-- Modelled from the spec: `DisjointShape.get_height` is not under `src/`;
the shape's bounding height over all segment endpoints. -/
noncomputable def shapeHeight (lines : List Seg) : ℝ :=
  listMax (yCoords lines) - listMin (yCoords lines)

/-- Modelled from the spec: `DisjointShape.scale_to_fit` is not under `src/`.
Scales every coordinate with independent per-axis factors so the bounding
box matches the target width/height, skipping an axis whose current extent
is 0. -/
noncomputable def scaleToFit (lines : List Seg) (w h : ℝ) : List Seg :=
  lines.map fun l =>
    ⟨⟨l.p0.x * (if shapeWidth lines = 0 then 1 else w / shapeWidth lines),
      l.p0.y * (if shapeHeight lines = 0 then 1 else h / shapeHeight lines)⟩,
     ⟨l.p1.x * (if shapeWidth lines = 0 then 1 else w / shapeWidth lines),
      l.p1.y * (if shapeHeight lines = 0 then 1 else h / shapeHeight lines)⟩⟩

/-- Modelled from the spec: `DisjointShape.move_to` is not under `src/`.
Translates every coordinate so the shape's minimum corner lands at (x, y). -/
noncomputable def moveTo (lines : List Seg) (x y : ℝ) : List Seg :=
  lines.map fun l =>
    ⟨⟨l.p0.x + (x - listMin (xCoords lines)), l.p0.y + (y - listMin (yCoords lines))⟩,
     ⟨l.p1.x + (x - listMin (xCoords lines)), l.p1.y + (y - listMin (yCoords lines))⟩⟩

/-- The geometry mutation performed by `_do_layout_without_padding`, source
lines 78–84: scale to fit the box, then translate so the shape's top edge
sits at the top of the box. -/
noncomputable def layoutLines (lines : List Seg) (box : Rectangle) : List Seg :=
  moveTo (scaleToFit lines box.width box.height) box.x
    (box.y + box.height - shapeHeight (scaleToFit lines box.width box.height))

/-- Source line 88: minimum over segments of each segment's smaller
x-coordinate. -/
noncomputable def min_x (lines : List Seg) : ℝ :=
  listMin (lines.map fun l => min l.p0.x l.p1.x)

/-- Source line 89: minimum over segments of each segment's smaller
y-coordinate. -/
noncomputable def min_y (lines : List Seg) : ℝ :=
  listMin (lines.map fun l => min l.p0.y l.p1.y)

/-- Source line 90, transcribed exactly: the maximum over segments of each
segment's SMALLER x-coordinate (the inner call is `min`, not `max`). -/
noncomputable def max_x (lines : List Seg) : ℝ :=
  listMax (lines.map fun l => min l.p0.x l.p1.x)

/-- Source line 91: maximum over segments of each segment's larger
y-coordinate. -/
noncomputable def max_y (lines : List Seg) : ℝ :=
  listMax (lines.map fun l => max l.p0.y l.p1.y)

/-- The true per-segment maximum x-coordinate, which the spec says `max_x`
should have used. -/
noncomputable def trueMaxX (lines : List Seg) : ℝ :=
  listMax (lines.map fun l => max l.p0.x l.p1.x)

/-- Source line 106: x midpoint used by the RADIAL branch. -/
noncomputable def mid_x (lines : List Seg) : ℝ :=
  (max_x lines - min_x lines) / 2 + min_x lines

/-- Source line 107: y midpoint used by the RADIAL branch. -/
noncomputable def mid_y (lines : List Seg) : ℝ :=
  (max_y lines - min_y lines) / 2 + min_y lines

/-- The four gradient orientations, source lines 26–35. -/
inductive GradientType where
  | DIAGONAL
  | HORIZONTAL
  | RADIAL
  | VERTICAL
deriving DecidableEq

/-- The normalization distance n, source lines 94–122.  The source
initializes n to 1 and overwrites it in one of four `if` branches; the four
branches are exhaustive over `GradientType`, so a `match` is faithful. -/
noncomputable def gradientNorm (gt : GradientType) (lines : List Seg) : ℝ :=
  match gt with
  | .DIAGONAL =>
      Real.sqrt ((min_x lines - max_x lines) ^ 2 + (min_y lines - max_y lines) ^ 2)
  | .HORIZONTAL => max_x lines - min_x lines
  | .RADIAL =>
      listMax (lines.map fun l =>
        Real.sqrt ((l.p0.x - mid_x lines) ^ 2 + (l.p0.y - mid_y lines) ^ 2))
  | .VERTICAL => max_y lines - min_y lines

/-- The per-segment distance d, source lines 130–139, measured from the
segment's start point. -/
noncomputable def segDist (gt : GradientType) (lines : List Seg) (l : Seg) : ℝ :=
  match gt with
  | .DIAGONAL =>
      Real.sqrt ((l.p0.x - min_x lines) ^ 2 + (l.p0.y - min_y lines) ^ 2)
  | .HORIZONTAL => l.p0.x - min_x lines
  | .RADIAL =>
      Real.sqrt ((l.p0.x - mid_x lines) ^ 2 + (l.p0.y - mid_y lines) ^ 2)
  | .VERTICAL => l.p0.y - min_y lines

/-- The per-segment stroke color, source lines 144–150: component-wise
linear interpolation in HSV space at parameter t (not clamped), converted
back to RGB. -/
noncomputable def strokeColor (fc tc : RGB) (t : ℝ) : RGB :=
  hsvToRgb ⟨(rgbToHsv fc).h + ((rgbToHsv tc).h - (rgbToHsv fc).h) * t,
            (rgbToHsv fc).s + ((rgbToHsv tc).s - (rgbToHsv fc).s) * t,
            (rgbToHsv fc).v + ((rgbToHsv tc).v - (rgbToHsv fc).v) * t⟩

/-- One emitted stroke command, source line 156: an RGB stroke color and the
segment's two endpoints. -/
structure DrawCmd where
  color : RGB
  seg : Seg

/-- How a render call can fail. `emptyShape` is the spec's EmptyShapeError;
`divisionByZero` models the Decimal division-by-zero exception raised by
`d / n` when n = 0. -/
inductive RenderError where
  | emptyShape
  | divisionByZero
deriving DecidableEq

/-- `_do_layout_without_padding`, source lines 74–184.  Returns the emitted
draw commands, the occupied rectangle (source lines 173–178) and the
mutated segment list.  The empty-shape guard is modelled from the spec
(EmptyShapeError, spec §7); with a nonempty list the source evaluates
`d / n` on the first loop iteration, so n = 0 raises before anything is
appended, modelled by the `divisionByZero` error. -/
noncomputable def render (lines : List Seg) (gt : GradientType) (fc tc : RGB)
    (box : Rectangle) : Except RenderError (List DrawCmd × Rectangle × List Seg) :=
  match lines with
  | [] => .error .emptyShape
  | _ :: _ =>
    if gradientNorm gt (layoutLines lines box) = 0 then .error .divisionByZero
    else
      .ok ((layoutLines lines box).map fun l =>
             ⟨strokeColor fc tc
                (segDist gt (layoutLines lines box) l / gradientNorm gt (layoutLines lines box)),
              l⟩,
           ⟨box.x, box.y + box.height - shapeHeight (layoutLines lines box),
            shapeWidth (layoutLines lines box), shapeHeight (layoutLines lines box)⟩,
           layoutLines lines box)

/-- Source line 170: the accumulated content is appended to the page only
when the render call completes; a raised error appends nothing. -/
noncomputable def appendRender (page : List DrawCmd)
    (res : Except RenderError (List DrawCmd × Rectangle × List Seg)) : List DrawCmd :=
  match res with
  | .ok (cmds, _, _) => page ++ cmds
  | .error _ => page

/-- The gradient-colored shape's own data, source lines 70–72: the two
endpoint colors and the orientation, over the copied segment list. -/
structure GradientColoredDisjointShape where
  lines : List Seg
  from_color : RGB
  to_color : RGB
  gradient_type : GradientType

/-- `__init__`, source lines 37–72, with the orientation given explicitly. -/
def GradientColoredDisjointShape.init (srcLines : List Seg) (from_color to_color : RGB)
    (gradient_type : GradientType) : GradientColoredDisjointShape :=
  ⟨srcLines, from_color, to_color, gradient_type⟩

/-- `__init__` with the `gradient_type` argument omitted: source line 42
declares the default value `GradientType.RADIAL`. -/
def GradientColoredDisjointShape.initDefault (srcLines : List Seg)
    (from_color to_color : RGB) : GradientColoredDisjointShape :=
  GradientColoredDisjointShape.init srcLines from_color to_color GradientType.RADIAL

/-- A store of segment lists, indexed by address, modelling Python object
identity for the mutable `_lines` lists. -/
abbrev SegStore : Type := List (List Seg)

/-- Modelled from the spec: constructing a `GradientColoredDisjointShape`
from a source shape deep-copies the source's segment list (spec §4.3), here
by allocating a fresh cell holding a copy of the source cell's contents.
Returns the new store and the constructed shape's address. -/
def constructCopy (store : SegStore) (srcAddr : Nat) : SegStore × Nat :=
  (store ++ [List.getD store srcAddr []], List.length store)

/-- Rendering mutates the rendered shape's segment list in place (source
lines 78–84 via `scale_to_fit` and `move_to`): the cell at the shape's
address is overwritten with the transformed list. -/
noncomputable def renderMutate (store : SegStore) (addr : Nat) (box : Rectangle) :
    SegStore :=
  List.set store addr (layoutLines (List.getD store addr []) box)

theorem max_mul_nonneg (a b c : ℝ) (hc : 0 ≤ c) : max a b * c = max (a * c) (b * c) := by
  rcases le_total a b with h | h
  · rw [max_eq_right h, max_eq_right (mul_le_mul_of_nonneg_right h hc)]
  · rw [max_eq_left h, max_eq_left (mul_le_mul_of_nonneg_right h hc)]

theorem min_mul_nonneg (a b c : ℝ) (hc : 0 ≤ c) : min a b * c = min (a * c) (b * c) := by
  rcases le_total a b with h | h
  · rw [min_eq_left h, min_eq_left (mul_le_mul_of_nonneg_right h hc)]
  · rw [min_eq_right h, min_eq_right (mul_le_mul_of_nonneg_right h hc)]

theorem max_add_const (a b d : ℝ) : max a b + d = max (a + d) (b + d) := by
  rcases le_total a b with h | h
  · rw [max_eq_right h, max_eq_right (by linarith)]
  · rw [max_eq_left h, max_eq_left (by linarith)]

theorem min_add_const (a b d : ℝ) : min a b + d = min (a + d) (b + d) := by
  rcases le_total a b with h | h
  · rw [min_eq_left h, min_eq_left (by linarith)]
  · rw [min_eq_right h, min_eq_right (by linarith)]

theorem listMax_map_mul (c : ℝ) (hc : 0 ≤ c) (l : List ℝ) :
    listMax (l.map fun t => t * c) = listMax l * c := by
  induction l with
  | nil => simp [listMax]
  | cons x xs ih =>
    cases xs with
    | nil => simp [listMax]
    | cons y ys =>
      calc listMax ((x :: y :: ys).map fun t => t * c)
          = max (x * c) (listMax ((y :: ys).map fun t => t * c)) := by
            simp only [List.map_cons, listMax]
        _ = max (x * c) (listMax (y :: ys) * c) := by rw [ih]
        _ = max x (listMax (y :: ys)) * c := (max_mul_nonneg _ _ _ hc).symm
        _ = listMax (x :: y :: ys) * c := by simp only [listMax]

theorem listMin_map_mul (c : ℝ) (hc : 0 ≤ c) (l : List ℝ) :
    listMin (l.map fun t => t * c) = listMin l * c := by
  induction l with
  | nil => simp [listMin]
  | cons x xs ih =>
    cases xs with
    | nil => simp [listMin]
    | cons y ys =>
      calc listMin ((x :: y :: ys).map fun t => t * c)
          = min (x * c) (listMin ((y :: ys).map fun t => t * c)) := by
            simp only [List.map_cons, listMin]
        _ = min (x * c) (listMin (y :: ys) * c) := by rw [ih]
        _ = min x (listMin (y :: ys)) * c := (min_mul_nonneg _ _ _ hc).symm
        _ = listMin (x :: y :: ys) * c := by simp only [listMin]

theorem listMax_map_add (d : ℝ) (l : List ℝ) (hne : l ≠ []) :
    listMax (l.map fun t => t + d) = listMax l + d := by
  induction l with
  | nil => exact absurd rfl hne
  | cons x xs ih =>
    cases xs with
    | nil => simp [listMax]
    | cons y ys =>
      calc listMax ((x :: y :: ys).map fun t => t + d)
          = max (x + d) (listMax ((y :: ys).map fun t => t + d)) := by
            simp only [List.map_cons, listMax]
        _ = max (x + d) (listMax (y :: ys) + d) := by rw [ih (by simp)]
        _ = max x (listMax (y :: ys)) + d := (max_add_const _ _ _).symm
        _ = listMax (x :: y :: ys) + d := by simp only [listMax]

theorem listMin_map_add (d : ℝ) (l : List ℝ) (hne : l ≠ []) :
    listMin (l.map fun t => t + d) = listMin l + d := by
  induction l with
  | nil => exact absurd rfl hne
  | cons x xs ih =>
    cases xs with
    | nil => simp [listMin]
    | cons y ys =>
      calc listMin ((x :: y :: ys).map fun t => t + d)
          = min (x + d) (listMin ((y :: ys).map fun t => t + d)) := by
            simp only [List.map_cons, listMin]
        _ = min (x + d) (listMin (y :: ys) + d) := by rw [ih (by simp)]
        _ = min x (listMin (y :: ys)) + d := (min_add_const _ _ _).symm
        _ = listMin (x :: y :: ys) + d := by simp only [listMin]

theorem xCoords_scaleToFit (lines : List Seg) (w h : ℝ) :
    xCoords (scaleToFit lines w h) =
      (xCoords lines).map fun t =>
        t * (if shapeWidth lines = 0 then 1 else w / shapeWidth lines) := by
  unfold scaleToFit
  generalize (if shapeWidth lines = 0 then 1 else w / shapeWidth lines) = sx
  generalize (if shapeHeight lines = 0 then 1 else h / shapeHeight lines) = sy
  induction lines with
  | nil => rfl
  | cons l ls ih => simp only [List.map_cons, xCoords, ih]

theorem yCoords_scaleToFit (lines : List Seg) (w h : ℝ) :
    yCoords (scaleToFit lines w h) =
      (yCoords lines).map fun t =>
        t * (if shapeHeight lines = 0 then 1 else h / shapeHeight lines) := by
  unfold scaleToFit
  generalize (if shapeWidth lines = 0 then 1 else w / shapeWidth lines) = sx
  generalize (if shapeHeight lines = 0 then 1 else h / shapeHeight lines) = sy
  induction lines with
  | nil => rfl
  | cons l ls ih => simp only [List.map_cons, yCoords, ih]

theorem xCoords_moveTo (lines : List Seg) (x y : ℝ) :
    xCoords (moveTo lines x y) =
      (xCoords lines).map fun t => t + (x - listMin (xCoords lines)) := by
  unfold moveTo
  generalize (x - listMin (xCoords lines)) = dx
  generalize (y - listMin (yCoords lines)) = dy
  induction lines with
  | nil => rfl
  | cons l ls ih => simp only [List.map_cons, xCoords, ih]

theorem yCoords_moveTo (lines : List Seg) (x y : ℝ) :
    yCoords (moveTo lines x y) =
      (yCoords lines).map fun t => t + (y - listMin (yCoords lines)) := by
  unfold moveTo
  generalize (x - listMin (xCoords lines)) = dx
  generalize (y - listMin (yCoords lines)) = dy
  induction lines with
  | nil => rfl
  | cons l ls ih => simp only [List.map_cons, yCoords, ih]

theorem xCoords_ne_nil (lines : List Seg) (hne : lines ≠ []) : xCoords lines ≠ [] := by
  cases lines with
  | nil => exact absurd rfl hne
  | cons l ls => simp [xCoords]

theorem yCoords_ne_nil (lines : List Seg) (hne : lines ≠ []) : yCoords lines ≠ [] := by
  cases lines with
  | nil => exact absurd rfl hne
  | cons l ls => simp [yCoords]

theorem shapeWidth_moveTo (lines : List Seg) (hne : lines ≠ []) (x y : ℝ) :
    shapeWidth (moveTo lines x y) = shapeWidth lines := by
  unfold shapeWidth
  rw [xCoords_moveTo, listMax_map_add _ _ (xCoords_ne_nil lines hne),
    listMin_map_add _ _ (xCoords_ne_nil lines hne)]
  ring

theorem shapeHeight_moveTo (lines : List Seg) (hne : lines ≠ []) (x y : ℝ) :
    shapeHeight (moveTo lines x y) = shapeHeight lines := by
  unfold shapeHeight
  rw [yCoords_moveTo, listMax_map_add _ _ (yCoords_ne_nil lines hne),
    listMin_map_add _ _ (yCoords_ne_nil lines hne)]
  ring

theorem shapeWidth_scaleToFit (lines : List Seg) (w h : ℝ) (hpos : 0 < shapeWidth lines)
    (hw : 0 ≤ w) : shapeWidth (scaleToFit lines w h) = w := by
  have hne : shapeWidth lines ≠ 0 := ne_of_gt hpos
  have hsx : 0 ≤ w / shapeWidth lines := div_nonneg hw (le_of_lt hpos)
  unfold shapeWidth
  rw [xCoords_scaleToFit, if_neg hne, listMax_map_mul _ hsx, listMin_map_mul _ hsx]
  have hW : listMax (xCoords lines) - listMin (xCoords lines) ≠ 0 := hne
  field_simp
  unfold shapeWidth
  ring

theorem shapeHeight_scaleToFit (lines : List Seg) (w h : ℝ)
    (hpos : 0 < shapeHeight lines) (hh : 0 ≤ h) :
    shapeHeight (scaleToFit lines w h) = h := by
  have hne : shapeHeight lines ≠ 0 := ne_of_gt hpos
  have hsy : 0 ≤ h / shapeHeight lines := div_nonneg hh (le_of_lt hpos)
  unfold shapeHeight
  rw [yCoords_scaleToFit, if_neg hne, listMax_map_mul _ hsy, listMin_map_mul _ hsy]
  have hH : listMax (yCoords lines) - listMin (yCoords lines) ≠ 0 := hne
  field_simp
  unfold shapeHeight
  ring

theorem scaleToFit_ne_nil (lines : List Seg) (hne : lines ≠ []) (w h : ℝ) :
    scaleToFit lines w h ≠ [] := by
  unfold scaleToFit
  simpa using hne

theorem layoutLines_ne_nil (lines : List Seg) (hne : lines ≠ []) (box : Rectangle) :
    layoutLines lines box ≠ [] := by
  unfold layoutLines moveTo
  simpa using scaleToFit_ne_nil lines hne box.width box.height

theorem shapeWidth_layoutLines (lines : List Seg) (box : Rectangle) (hne : lines ≠ [])
    (hpos : 0 < shapeWidth lines) (hw : 0 ≤ box.width) :
    shapeWidth (layoutLines lines box) = box.width := by
  unfold layoutLines
  rw [shapeWidth_moveTo _ (scaleToFit_ne_nil lines hne _ _),
    shapeWidth_scaleToFit lines _ _ hpos hw]

theorem shapeHeight_layoutLines (lines : List Seg) (box : Rectangle) (hne : lines ≠ [])
    (hpos : 0 < shapeHeight lines) (hh : 0 ≤ box.height) :
    shapeHeight (layoutLines lines box) = box.height := by
  unfold layoutLines
  rw [shapeHeight_moveTo _ (scaleToFit_ne_nil lines hne _ _),
    shapeHeight_scaleToFit lines _ _ hpos hh]

theorem render_nil (gt : GradientType) (fc tc : RGB) (box : Rectangle) :
    render [] gt fc tc box = .error .emptyShape := rfl

theorem render_of_norm_ne (lines : List Seg) (gt : GradientType) (fc tc : RGB)
    (box : Rectangle) (hne : lines ≠ [])
    (hn : gradientNorm gt (layoutLines lines box) ≠ 0) :
    render lines gt fc tc box =
      .ok ((layoutLines lines box).map fun l =>
             ⟨strokeColor fc tc
                (segDist gt (layoutLines lines box) l /
                  gradientNorm gt (layoutLines lines box)), l⟩,
           ⟨box.x, box.y + box.height - shapeHeight (layoutLines lines box),
            shapeWidth (layoutLines lines box), shapeHeight (layoutLines lines box)⟩,
           layoutLines lines box) := by
  cases lines with
  | nil => exact absurd rfl hne
  | cons a as => simp only [render, if_neg hn]

theorem render_of_norm_zero (lines : List Seg) (gt : GradientType) (fc tc : RGB)
    (box : Rectangle) (hne : lines ≠ [])
    (hn : gradientNorm gt (layoutLines lines box) = 0) :
    render lines gt fc tc box = .error .divisionByZero := by
  cases lines with
  | nil => exact absurd rfl hne
  | cons a as => simp only [render, if_pos hn]

/-- At t = 0 the interpolated HSV triple is exactly the start color's. -/
theorem strokeColor_zero (fc tc : RGB) (h1 : 0 ≤ fc.r) (h2 : 0 ≤ fc.g) (h3 : 0 ≤ fc.b) :
    strokeColor fc tc 0 = fc := by
  unfold strokeColor
  rw [show (rgbToHsv fc).h + ((rgbToHsv tc).h - (rgbToHsv fc).h) * 0 = (rgbToHsv fc).h
      from by ring,
    show (rgbToHsv fc).s + ((rgbToHsv tc).s - (rgbToHsv fc).s) * 0 = (rgbToHsv fc).s
      from by ring,
    show (rgbToHsv fc).v + ((rgbToHsv tc).v - (rgbToHsv fc).v) * 0 = (rgbToHsv fc).v
      from by ring]
  exact hsv_rgb_roundTrip fc h1 h2 h3

/-- At t = 1 the interpolated HSV triple is exactly the end color's. -/
theorem strokeColor_one (fc tc : RGB) (h1 : 0 ≤ tc.r) (h2 : 0 ≤ tc.g) (h3 : 0 ≤ tc.b) :
    strokeColor fc tc 1 = tc := by
  unfold strokeColor
  rw [show (rgbToHsv fc).h + ((rgbToHsv tc).h - (rgbToHsv fc).h) * 1 = (rgbToHsv tc).h
      from by ring,
    show (rgbToHsv fc).s + ((rgbToHsv tc).s - (rgbToHsv fc).s) * 1 = (rgbToHsv tc).s
      from by ring,
    show (rgbToHsv fc).v + ((rgbToHsv tc).v - (rgbToHsv fc).v) * 1 = (rgbToHsv tc).v
      from by ring]
  exact hsv_rgb_roundTrip tc h1 h2 h3

/-- Interpolating between identical endpoints is constant in t. -/
theorem strokeColor_same (c : RGB) (t : ℝ) (h1 : 0 ≤ c.r) (h2 : 0 ≤ c.g) (h3 : 0 ≤ c.b) :
    strokeColor c c t = c := by
  unfold strokeColor
  rw [show (rgbToHsv c).h + ((rgbToHsv c).h - (rgbToHsv c).h) * t = (rgbToHsv c).h
      from by ring,
    show (rgbToHsv c).s + ((rgbToHsv c).s - (rgbToHsv c).s) * t = (rgbToHsv c).s
      from by ring,
    show (rgbToHsv c).v + ((rgbToHsv c).v - (rgbToHsv c).v) * t = (rgbToHsv c).v
      from by ring]
  exact hsv_rgb_roundTrip c h1 h2 h3

/-- C10: constructing a `GradientColoredDisjointShape` without an explicit
`gradient_type` argument yields orientation RADIAL, the constructor's
default (source line 42). -/
theorem C10_default_gradient_radial (srcLines : List Seg) (fc tc : RGB) :
    (GradientColoredDisjointShape.initDefault srcLines fc tc).gradient_type =
      GradientType.RADIAL := rfl

/-- C3: rendering a shape whose segment sequence is empty fails with
`EmptyShapeError`, emits zero draw commands, and appends nothing to the
page content stream. -/
theorem C3_empty_shape (gt : GradientType) (fc tc : RGB) (box : Rectangle)
    (page : List DrawCmd) :
    render [] gt fc tc box = .error .emptyShape ∧
      appendRender page (render [] gt fc tc box) = page :=
  ⟨rfl, rfl⟩

/-- C9: construction deep-copies the source shape's segment list, so
rendering the constructed shape (which scales and translates its segment
coordinates in place) leaves the source shape's segment list unchanged. -/
theorem C9_deep_copy_preserves_source (store : SegStore) (srcAddr : Nat)
    (box : Rectangle) (h : srcAddr < List.length store) :
    List.getD
      (renderMutate (constructCopy store srcAddr).1 (constructCopy store srcAddr).2 box)
      srcAddr [] = List.getD store srcAddr [] := by
  unfold renderMutate constructCopy
  dsimp only
  rw [List.getD_eq_getElem?_getD, List.getElem?_set_ne (Nat.ne_of_gt h),
    List.getElem?_append, if_pos h, ← List.getD_eq_getElem?_getD]

theorem C9_deep_copy_preserves_source_witness :
    (0 : Nat) < List.length ([[⟨⟨1, 2⟩, ⟨3, 4⟩⟩]] : SegStore) ∧
    List.getD
      (renderMutate (constructCopy [[⟨⟨1, 2⟩, ⟨3, 4⟩⟩]] 0).1
        (constructCopy [[⟨⟨1, 2⟩, ⟨3, 4⟩⟩]] 0).2 ⟨0, 0, 7, 7⟩) 0 [] =
      List.getD ([[⟨⟨1, 2⟩, ⟨3, 4⟩⟩]] : SegStore) 0 [] :=
  ⟨by simp, C9_deep_copy_preserves_source [[⟨⟨1, 2⟩, ⟨3, 4⟩⟩]] 0 ⟨0, 0, 7, 7⟩ (by simp)⟩

/-- C1: on the single-segment shape (0,0)-(10,0) laid out into the box
(0,0,100,100), the extremum `max_x` the renderer uses evaluates to 0 (the
maximum of each segment's SMALLER x-coordinate), while the true per-segment
maximum is 100; the vanishing extent `max_x - min_x` then makes the render
fail with a division-by-zero instead of producing a gradient. -/
theorem C1_max_x_from_segment_minima :
    max_x (layoutLines [⟨⟨0, 0⟩, ⟨10, 0⟩⟩] ⟨0, 0, 100, 100⟩) = 0 ∧
    trueMaxX (layoutLines [⟨⟨0, 0⟩, ⟨10, 0⟩⟩] ⟨0, 0, 100, 100⟩) = 100 ∧
    render [⟨⟨0, 0⟩, ⟨10, 0⟩⟩] .HORIZONTAL ⟨1, 0, 0⟩ ⟨0, 0, 1⟩ ⟨0, 0, 100, 100⟩ =
      .error .divisionByZero := by
  have hL : layoutLines [⟨⟨0, 0⟩, ⟨10, 0⟩⟩] ⟨0, 0, 100, 100⟩ =
      [⟨⟨0, 100⟩, ⟨100, 100⟩⟩] := by
    norm_num [layoutLines, scaleToFit, moveTo, shapeWidth, shapeHeight, xCoords, yCoords,
      listMax, listMin, max_def, min_def]
  refine ⟨?_, ?_, ?_⟩
  · rw [hL]
    norm_num [max_x, listMax, max_def, min_def]
  · rw [hL]
    norm_num [trueMaxX, listMax, max_def, min_def]
  · apply render_of_norm_zero _ _ _ _ _ (by simp)
    rw [hL]
    norm_num [gradientNorm, max_x, min_x, listMax, listMin, max_def, min_def]

/-- C2: on a degenerate shape whose points all coincide the normalization
distance n evaluates to 0 and the render call fails with the Decimal
division-by-zero raised by `d / n`, instead of completing with every
segment in `from_color`. -/
theorem C2_zero_norm_raises :
    gradientNorm .HORIZONTAL (layoutLines [⟨⟨5, 5⟩, ⟨5, 5⟩⟩] ⟨0, 0, 100, 100⟩) = 0 ∧
    render [⟨⟨5, 5⟩, ⟨5, 5⟩⟩] .HORIZONTAL ⟨1, 0, 0⟩ ⟨0, 0, 1⟩ ⟨0, 0, 100, 100⟩ =
      .error .divisionByZero := by
  have hL : layoutLines [⟨⟨5, 5⟩, ⟨5, 5⟩⟩] ⟨0, 0, 100, 100⟩ =
      [⟨⟨0, 100⟩, ⟨0, 100⟩⟩] := by
    norm_num [layoutLines, scaleToFit, moveTo, shapeWidth, shapeHeight, xCoords, yCoords,
      listMax, listMin, max_def, min_def]
  have hn : gradientNorm .HORIZONTAL (layoutLines [⟨⟨5, 5⟩, ⟨5, 5⟩⟩] ⟨0, 0, 100, 100⟩)
      = 0 := by
    rw [hL]
    norm_num [gradientNorm, max_x, min_x, listMax, listMin, max_def, min_def]
  exact ⟨hn, render_of_norm_zero _ _ _ _ _ (by simp) hn⟩

/-- C5: the spec's HORIZONTAL two-segment scenario ((0,0)-(10,0) and
(0,0)-(0,10), red to blue, box (0,0,100,100)) does not succeed with two red
strokes: the buggy `max_x` makes n = 0 and the render fails with a
division-by-zero. -/
theorem C5_horizontal_scenario_raises :
    gradientNorm .HORIZONTAL
      (layoutLines [⟨⟨0, 0⟩, ⟨10, 0⟩⟩, ⟨⟨0, 0⟩, ⟨0, 10⟩⟩] ⟨0, 0, 100, 100⟩) = 0 ∧
    render [⟨⟨0, 0⟩, ⟨10, 0⟩⟩, ⟨⟨0, 0⟩, ⟨0, 10⟩⟩] .HORIZONTAL ⟨1, 0, 0⟩ ⟨0, 0, 1⟩
      ⟨0, 0, 100, 100⟩ = .error .divisionByZero := by
  have hL : layoutLines [⟨⟨0, 0⟩, ⟨10, 0⟩⟩, ⟨⟨0, 0⟩, ⟨0, 10⟩⟩] ⟨0, 0, 100, 100⟩ =
      [⟨⟨0, 0⟩, ⟨100, 0⟩⟩, ⟨⟨0, 0⟩, ⟨0, 100⟩⟩] := by
    norm_num [layoutLines, scaleToFit, moveTo, shapeWidth, shapeHeight, xCoords, yCoords,
      listMax, listMin, max_def, min_def]
  have hn : gradientNorm .HORIZONTAL
      (layoutLines [⟨⟨0, 0⟩, ⟨10, 0⟩⟩, ⟨⟨0, 0⟩, ⟨0, 10⟩⟩] ⟨0, 0, 100, 100⟩) = 0 := by
    rw [hL]
    norm_num [gradientNorm, max_x, min_x, listMax, listMin, max_def, min_def]
  exact ⟨hn, render_of_norm_zero _ _ _ _ _ (by simp) hn⟩

/-- C6: the interpolation parameter t = d/n is used without clamping: on a
two-segment shape whose second segment starts right of the (buggy) `max_x`,
t evaluates to 5/4 and the render emits a stroke whose color components are
5/4, outside the valid [0,1] range — nothing clamps t before
interpolation. -/
theorem C6_unclamped_parameter :
    segDist .HORIZONTAL
        (layoutLines [⟨⟨0, 0⟩, ⟨100, 0⟩⟩, ⟨⟨50, 100⟩, ⟨40, 100⟩⟩] ⟨0, 0, 100, 100⟩)
        ⟨⟨50, 100⟩, ⟨40, 100⟩⟩ /
      gradientNorm .HORIZONTAL
        (layoutLines [⟨⟨0, 0⟩, ⟨100, 0⟩⟩, ⟨⟨50, 100⟩, ⟨40, 100⟩⟩] ⟨0, 0, 100, 100⟩) =
      5 / 4 ∧
    render [⟨⟨0, 0⟩, ⟨100, 0⟩⟩, ⟨⟨50, 100⟩, ⟨40, 100⟩⟩] .HORIZONTAL ⟨0, 0, 0⟩ ⟨1, 1, 1⟩
        ⟨0, 0, 100, 100⟩ =
      .ok ([⟨⟨0, 0, 0⟩, ⟨⟨0, 0⟩, ⟨100, 0⟩⟩⟩,
            ⟨⟨5 / 4, 5 / 4, 5 / 4⟩, ⟨⟨50, 100⟩, ⟨40, 100⟩⟩⟩],
           ⟨0, 0, 100, 100⟩,
           [⟨⟨0, 0⟩, ⟨100, 0⟩⟩, ⟨⟨50, 100⟩, ⟨40, 100⟩⟩]) ∧
    ¬ ((5 : ℝ) / 4 ≤ 1) := by
  have hL : layoutLines [⟨⟨0, 0⟩, ⟨100, 0⟩⟩, ⟨⟨50, 100⟩, ⟨40, 100⟩⟩] ⟨0, 0, 100, 100⟩ =
      [⟨⟨0, 0⟩, ⟨100, 0⟩⟩, ⟨⟨50, 100⟩, ⟨40, 100⟩⟩] := by
    norm_num [layoutLines, scaleToFit, moveTo, shapeWidth, shapeHeight, xCoords, yCoords,
      listMax, listMin, max_def, min_def]
  refine ⟨?_, ?_, by norm_num⟩
  · rw [hL]
    norm_num [segDist, gradientNorm, max_x, min_x, listMax, listMin, max_def, min_def]
  · rw [render_of_norm_ne _ _ _ _ _ (by simp)
      (by rw [hL]
          norm_num [gradientNorm, max_x, min_x, listMax, listMin, max_def, min_def])]
    rw [hL]
    norm_num [gradientNorm, segDist, max_x, min_x, shapeWidth, shapeHeight, xCoords,
      yCoords, listMax, listMin, strokeColor, rgbToHsv, hsvToRgb, hueOf, hueRaw, satOf,
      valOf, max_def, min_def, Rectangle.mk.injEq, DrawCmd.mk.injEq, RGB.mk.injEq,
      Seg.mk.injEq, Point.mk.injEq, Prod.mk.injEq]

/-- C4 counterexample: a shape with zero original width (a single vertical
segment) renders successfully into the box (0,0,100,100) but its recorded
occupied rectangle has width 0, not the target width 100 — the recorded
width does not equal W "regardless of the shape's original extent". -/
theorem C4_degenerate_extent_counterexample :
    render [⟨⟨0, 0⟩, ⟨0, 10⟩⟩] .VERTICAL ⟨1, 0, 0⟩ ⟨0, 0, 1⟩ ⟨0, 0, 100, 100⟩ =
      .ok ([⟨⟨1, 0, 0⟩, ⟨⟨0, 0⟩, ⟨0, 100⟩⟩⟩], ⟨0, 0, 0, 100⟩,
           [⟨⟨0, 0⟩, ⟨0, 100⟩⟩]) ∧
    ¬ |(Rectangle.mk (0 : ℝ) 0 0 100).width -
        (Rectangle.mk (0 : ℝ) 0 100 100).width| ≤ 1e-6 := by
  have hL : layoutLines [⟨⟨0, 0⟩, ⟨0, 10⟩⟩] ⟨0, 0, 100, 100⟩ =
      [⟨⟨0, 0⟩, ⟨0, 100⟩⟩] := by
    norm_num [layoutLines, scaleToFit, moveTo, shapeWidth, shapeHeight, xCoords, yCoords,
      listMax, listMin, max_def, min_def]
  constructor
  · rw [render_of_norm_ne _ _ _ _ _ (by simp)
      (by rw [hL]
          norm_num [gradientNorm, max_y, min_y, listMax, listMin, max_def, min_def])]
    rw [hL]
    norm_num [gradientNorm, segDist, max_y, min_y, shapeWidth, shapeHeight, xCoords,
      yCoords, listMax, listMin, strokeColor, rgbToHsv, hsvToRgb, hueOf, hueRaw, satOf,
      valOf, max_def, min_def, Rectangle.mk.injEq, DrawCmd.mk.injEq, RGB.mk.injEq,
      Seg.mk.injEq, Point.mk.injEq, Prod.mk.injEq]
  · norm_num [abs_le]

/-- C4 (amended): for a shape of positive original width and height rendered
into a target of nonnegative width and height, a completed render records
the occupied rectangle (target.x, target.y + target.height − shape.height,
shape.width, shape.height), with recorded width and height exactly the
target's (hence within 1e-6). -/
theorem C4_occupied_rectangle (lines : List Seg) (gt : GradientType) (fc tc : RGB)
    (box : Rectangle) (cmds : List DrawCmd) (rect : Rectangle) (fin₂ : List Seg)
    (hw : 0 < shapeWidth lines) (hh : 0 < shapeHeight lines)
    (hbw : 0 ≤ box.width) (hbh : 0 ≤ box.height)
    (hok : render lines gt fc tc box = .ok (cmds, rect, fin₂)) :
    rect = ⟨box.x, box.y + box.height - shapeHeight fin₂, shapeWidth fin₂,
            shapeHeight fin₂⟩ ∧
    shapeWidth fin₂ = box.width ∧ shapeHeight fin₂ = box.height ∧
    rect.width = box.width ∧ rect.height = box.height := by
  have hne : lines ≠ [] := by
    intro hnil
    rw [hnil] at hw
    norm_num [shapeWidth, xCoords, listMax, listMin] at hw
  by_cases hn : gradientNorm gt (layoutLines lines box) = 0
  · rw [render_of_norm_zero _ _ _ _ _ hne hn] at hok
    exact absurd hok (by simp)
  · rw [render_of_norm_ne _ _ _ _ _ hne hn] at hok
    simp only [Except.ok.injEq, Prod.mk.injEq] at hok
    obtain ⟨hcmds, hrect, hfin⟩ := hok
    subst hfin
    subst hrect
    refine ⟨rfl, shapeWidth_layoutLines lines box hne hw hbw,
      shapeHeight_layoutLines lines box hne hh hbh,
      shapeWidth_layoutLines lines box hne hw hbw,
      shapeHeight_layoutLines lines box hne hh hbh⟩

theorem C4_occupied_rectangle_witness :
    0 < shapeWidth [⟨⟨0, 0⟩, ⟨10, 0⟩⟩, ⟨⟨5, 10⟩, ⟨10, 10⟩⟩] ∧
    (Rectangle.mk (0 : ℝ) 0 10 10 =
      ⟨0, 0 + 10 - shapeHeight [⟨⟨0, 0⟩, ⟨10, 0⟩⟩, ⟨⟨5, 10⟩, ⟨10, 10⟩⟩],
       shapeWidth [⟨⟨0, 0⟩, ⟨10, 0⟩⟩, ⟨⟨5, 10⟩, ⟨10, 10⟩⟩],
       shapeHeight [⟨⟨0, 0⟩, ⟨10, 0⟩⟩, ⟨⟨5, 10⟩, ⟨10, 10⟩⟩]⟩ ∧
     shapeWidth [⟨⟨0, 0⟩, ⟨10, 0⟩⟩, ⟨⟨5, 10⟩, ⟨10, 10⟩⟩] = 10 ∧
     shapeHeight [⟨⟨0, 0⟩, ⟨10, 0⟩⟩, ⟨⟨5, 10⟩, ⟨10, 10⟩⟩] = 10 ∧
     (Rectangle.mk (0 : ℝ) 0 10 10).width = 10 ∧
     (Rectangle.mk (0 : ℝ) 0 10 10).height = 10) := by
  have hL : layoutLines [⟨⟨0, 0⟩, ⟨10, 0⟩⟩, ⟨⟨5, 10⟩, ⟨10, 10⟩⟩] ⟨0, 0, 10, 10⟩ =
      [⟨⟨0, 0⟩, ⟨10, 0⟩⟩, ⟨⟨5, 10⟩, ⟨10, 10⟩⟩] := by
    norm_num [layoutLines, scaleToFit, moveTo, shapeWidth, shapeHeight, xCoords, yCoords,
      listMax, listMin, max_def, min_def]
  have hok : render [⟨⟨0, 0⟩, ⟨10, 0⟩⟩, ⟨⟨5, 10⟩, ⟨10, 10⟩⟩] .VERTICAL ⟨1, 0, 0⟩
      ⟨0, 0, 1⟩ ⟨0, 0, 10, 10⟩ =
      .ok ([⟨⟨1, 0, 0⟩, ⟨⟨0, 0⟩, ⟨10, 0⟩⟩⟩, ⟨⟨0, 0, 1⟩, ⟨⟨5, 10⟩, ⟨10, 10⟩⟩⟩],
           ⟨0, 0 + 10 - 10, 10, 10⟩, [⟨⟨0, 0⟩, ⟨10, 0⟩⟩, ⟨⟨5, 10⟩, ⟨10, 10⟩⟩]) := by
    rw [render_of_norm_ne _ _ _ _ _ (by simp)
      (by rw [hL]
          norm_num [gradientNorm, max_y, min_y, listMax, listMin, max_def, min_def])]
    rw [hL]
    norm_num [gradientNorm, segDist, max_y, min_y, shapeWidth, shapeHeight, xCoords,
      yCoords, listMax, listMin, strokeColor, rgbToHsv, hsvToRgb, hueOf, hueRaw, satOf,
      valOf, max_def, min_def, Rectangle.mk.injEq, DrawCmd.mk.injEq, RGB.mk.injEq,
      Seg.mk.injEq, Point.mk.injEq, Prod.mk.injEq]
  refine ⟨by norm_num [shapeWidth, xCoords, listMax, listMin, max_def, min_def], ?_⟩
  have hres := C4_occupied_rectangle _ _ _ _ _ _ _ _
    (by norm_num [shapeWidth, xCoords, listMax, listMin, max_def, min_def])
    (by norm_num [shapeHeight, yCoords, listMax, listMin, max_def, min_def])
    (by norm_num) (by norm_num) hok
  convert hres using 2
  norm_num

/-- C7: for every orientation and every non-empty shape whose norm n is
positive, the render completes, a laid-out segment at distance 0 is stroked
exactly in `from_color`, and one at distance n is stroked exactly in
`to_color` (the HSV round trip at t = 0 and t = 1 reproduces the endpoint
colors, so they agree within any tolerance). -/
theorem C7_endpoint_colors (lines : List Seg) (gt : GradientType) (fc tc : RGB)
    (box : Rectangle) (l : Seg) (hne : lines ≠ []) (hfc : validRGB fc)
    (htc : validRGB tc) (hn : 0 < gradientNorm gt (layoutLines lines box))
    (_hl : l ∈ layoutLines lines box) :
    render lines gt fc tc box =
      .ok ((layoutLines lines box).map fun seg =>
             ⟨strokeColor fc tc (segDist gt (layoutLines lines box) seg /
                gradientNorm gt (layoutLines lines box)), seg⟩,
           ⟨box.x, box.y + box.height - shapeHeight (layoutLines lines box),
            shapeWidth (layoutLines lines box), shapeHeight (layoutLines lines box)⟩,
           layoutLines lines box) ∧
    (segDist gt (layoutLines lines box) l = 0 →
      strokeColor fc tc (segDist gt (layoutLines lines box) l /
        gradientNorm gt (layoutLines lines box)) = fc) ∧
    (segDist gt (layoutLines lines box) l = gradientNorm gt (layoutLines lines box) →
      strokeColor fc tc (segDist gt (layoutLines lines box) l /
        gradientNorm gt (layoutLines lines box)) = tc) := by
  refine ⟨render_of_norm_ne _ _ _ _ _ hne (ne_of_gt hn), ?_, ?_⟩
  · intro hd
    rw [hd, zero_div]
    exact strokeColor_zero fc tc hfc.1 hfc.2.2.1 hfc.2.2.2.2.1
  · intro hd
    rw [hd, div_self (ne_of_gt hn)]
    exact strokeColor_one fc tc htc.1 htc.2.2.1 htc.2.2.2.2.1

theorem C7_endpoint_colors_witness :
    0 < gradientNorm .HORIZONTAL
        (layoutLines [⟨⟨0, 0⟩, ⟨10, 0⟩⟩, ⟨⟨5, 10⟩, ⟨10, 10⟩⟩] ⟨0, 0, 10, 10⟩) ∧
    (render [⟨⟨0, 0⟩, ⟨10, 0⟩⟩, ⟨⟨5, 10⟩, ⟨10, 10⟩⟩] .HORIZONTAL ⟨1, 0, 0⟩ ⟨0, 0, 1⟩
        ⟨0, 0, 10, 10⟩ =
      .ok ((layoutLines [⟨⟨0, 0⟩, ⟨10, 0⟩⟩, ⟨⟨5, 10⟩, ⟨10, 10⟩⟩] ⟨0, 0, 10, 10⟩).map
             fun seg =>
             ⟨strokeColor ⟨1, 0, 0⟩ ⟨0, 0, 1⟩
                (segDist .HORIZONTAL
                    (layoutLines [⟨⟨0, 0⟩, ⟨10, 0⟩⟩, ⟨⟨5, 10⟩, ⟨10, 10⟩⟩]
                      ⟨0, 0, 10, 10⟩) seg /
                  gradientNorm .HORIZONTAL
                    (layoutLines [⟨⟨0, 0⟩, ⟨10, 0⟩⟩, ⟨⟨5, 10⟩, ⟨10, 10⟩⟩]
                      ⟨0, 0, 10, 10⟩)), seg⟩,
           ⟨0, 0 + 10 - shapeHeight
              (layoutLines [⟨⟨0, 0⟩, ⟨10, 0⟩⟩, ⟨⟨5, 10⟩, ⟨10, 10⟩⟩] ⟨0, 0, 10, 10⟩),
            shapeWidth
              (layoutLines [⟨⟨0, 0⟩, ⟨10, 0⟩⟩, ⟨⟨5, 10⟩, ⟨10, 10⟩⟩] ⟨0, 0, 10, 10⟩),
            shapeHeight
              (layoutLines [⟨⟨0, 0⟩, ⟨10, 0⟩⟩, ⟨⟨5, 10⟩, ⟨10, 10⟩⟩] ⟨0, 0, 10, 10⟩)⟩,
           layoutLines [⟨⟨0, 0⟩, ⟨10, 0⟩⟩, ⟨⟨5, 10⟩, ⟨10, 10⟩⟩] ⟨0, 0, 10, 10⟩) ∧
     (segDist .HORIZONTAL
         (layoutLines [⟨⟨0, 0⟩, ⟨10, 0⟩⟩, ⟨⟨5, 10⟩, ⟨10, 10⟩⟩] ⟨0, 0, 10, 10⟩)
         ⟨⟨0, 0⟩, ⟨10, 0⟩⟩ = 0 →
       strokeColor ⟨1, 0, 0⟩ ⟨0, 0, 1⟩
         (segDist .HORIZONTAL
             (layoutLines [⟨⟨0, 0⟩, ⟨10, 0⟩⟩, ⟨⟨5, 10⟩, ⟨10, 10⟩⟩] ⟨0, 0, 10, 10⟩)
             ⟨⟨0, 0⟩, ⟨10, 0⟩⟩ /
           gradientNorm .HORIZONTAL
             (layoutLines [⟨⟨0, 0⟩, ⟨10, 0⟩⟩, ⟨⟨5, 10⟩, ⟨10, 10⟩⟩] ⟨0, 0, 10, 10⟩)) =
         ⟨1, 0, 0⟩) ∧
     (segDist .HORIZONTAL
         (layoutLines [⟨⟨0, 0⟩, ⟨10, 0⟩⟩, ⟨⟨5, 10⟩, ⟨10, 10⟩⟩] ⟨0, 0, 10, 10⟩)
         ⟨⟨0, 0⟩, ⟨10, 0⟩⟩ =
       gradientNorm .HORIZONTAL
         (layoutLines [⟨⟨0, 0⟩, ⟨10, 0⟩⟩, ⟨⟨5, 10⟩, ⟨10, 10⟩⟩] ⟨0, 0, 10, 10⟩) →
       strokeColor ⟨1, 0, 0⟩ ⟨0, 0, 1⟩
         (segDist .HORIZONTAL
             (layoutLines [⟨⟨0, 0⟩, ⟨10, 0⟩⟩, ⟨⟨5, 10⟩, ⟨10, 10⟩⟩] ⟨0, 0, 10, 10⟩)
             ⟨⟨0, 0⟩, ⟨10, 0⟩⟩ /
           gradientNorm .HORIZONTAL
             (layoutLines [⟨⟨0, 0⟩, ⟨10, 0⟩⟩, ⟨⟨5, 10⟩, ⟨10, 10⟩⟩] ⟨0, 0, 10, 10⟩)) =
         ⟨0, 0, 1⟩)) := by
  have hL : layoutLines [⟨⟨0, 0⟩, ⟨10, 0⟩⟩, ⟨⟨5, 10⟩, ⟨10, 10⟩⟩] ⟨0, 0, 10, 10⟩ =
      [⟨⟨0, 0⟩, ⟨10, 0⟩⟩, ⟨⟨5, 10⟩, ⟨10, 10⟩⟩] := by
    norm_num [layoutLines, scaleToFit, moveTo, shapeWidth, shapeHeight, xCoords, yCoords,
      listMax, listMin, max_def, min_def]
  have hn : 0 < gradientNorm .HORIZONTAL
      (layoutLines [⟨⟨0, 0⟩, ⟨10, 0⟩⟩, ⟨⟨5, 10⟩, ⟨10, 10⟩⟩] ⟨0, 0, 10, 10⟩) := by
    rw [hL]
    norm_num [gradientNorm, max_x, min_x, listMax, listMin, max_def, min_def]
  have hmem : (⟨⟨0, 0⟩, ⟨10, 0⟩⟩ : Seg) ∈
      layoutLines [⟨⟨0, 0⟩, ⟨10, 0⟩⟩, ⟨⟨5, 10⟩, ⟨10, 10⟩⟩] ⟨0, 0, 10, 10⟩ := by
    rw [hL]
    exact List.mem_cons_self _ _
  exact ⟨hn, C7_endpoint_colors _ _ _ _ _ _ (by simp)
    (by norm_num [validRGB]) (by norm_num [validRGB]) hn hmem⟩

/-- C8: when the two endpoint colors coincide, every segment of a completed
render is stroked exactly in that color, for every orientation (interpolating
identical endpoints is constant in t). -/
theorem C8_identical_endpoints (lines : List Seg) (gt : GradientType) (c : RGB)
    (box : Rectangle) (hne : lines ≠ []) (hc : validRGB c)
    (hn : gradientNorm gt (layoutLines lines box) ≠ 0) :
    render lines gt c c box =
      .ok ((layoutLines lines box).map fun seg => ⟨c, seg⟩,
           ⟨box.x, box.y + box.height - shapeHeight (layoutLines lines box),
            shapeWidth (layoutLines lines box), shapeHeight (layoutLines lines box)⟩,
           layoutLines lines box) := by
  rw [render_of_norm_ne _ _ _ _ _ hne hn]
  have hmap : (layoutLines lines box).map (fun seg =>
      (⟨strokeColor c c (segDist gt (layoutLines lines box) seg /
          gradientNorm gt (layoutLines lines box)), seg⟩ : DrawCmd)) =
      (layoutLines lines box).map fun seg => (⟨c, seg⟩ : DrawCmd) :=
    List.map_congr_left fun seg _ => by
      rw [strokeColor_same c _ hc.1 hc.2.2.1 hc.2.2.2.2.1]
  rw [hmap]

theorem C8_identical_endpoints_witness :
    validRGB ⟨1, 0, 0⟩ ∧
    render [⟨⟨0, 0⟩, ⟨10, 0⟩⟩, ⟨⟨5, 10⟩, ⟨10, 10⟩⟩] .HORIZONTAL ⟨1, 0, 0⟩ ⟨1, 0, 0⟩
        ⟨0, 0, 10, 10⟩ =
      .ok ((layoutLines [⟨⟨0, 0⟩, ⟨10, 0⟩⟩, ⟨⟨5, 10⟩, ⟨10, 10⟩⟩] ⟨0, 0, 10, 10⟩).map
             fun seg => ⟨⟨1, 0, 0⟩, seg⟩,
           ⟨0, 0 + 10 - shapeHeight
              (layoutLines [⟨⟨0, 0⟩, ⟨10, 0⟩⟩, ⟨⟨5, 10⟩, ⟨10, 10⟩⟩] ⟨0, 0, 10, 10⟩),
            shapeWidth
              (layoutLines [⟨⟨0, 0⟩, ⟨10, 0⟩⟩, ⟨⟨5, 10⟩, ⟨10, 10⟩⟩] ⟨0, 0, 10, 10⟩),
            shapeHeight
              (layoutLines [⟨⟨0, 0⟩, ⟨10, 0⟩⟩, ⟨⟨5, 10⟩, ⟨10, 10⟩⟩] ⟨0, 0, 10, 10⟩)⟩,
           layoutLines [⟨⟨0, 0⟩, ⟨10, 0⟩⟩, ⟨⟨5, 10⟩, ⟨10, 10⟩⟩] ⟨0, 0, 10, 10⟩) := by
  have hL : layoutLines [⟨⟨0, 0⟩, ⟨10, 0⟩⟩, ⟨⟨5, 10⟩, ⟨10, 10⟩⟩] ⟨0, 0, 10, 10⟩ =
      [⟨⟨0, 0⟩, ⟨10, 0⟩⟩, ⟨⟨5, 10⟩, ⟨10, 10⟩⟩] := by
    norm_num [layoutLines, scaleToFit, moveTo, shapeWidth, shapeHeight, xCoords, yCoords,
      listMax, listMin, max_def, min_def]
  have hn : gradientNorm .HORIZONTAL
      (layoutLines [⟨⟨0, 0⟩, ⟨10, 0⟩⟩, ⟨⟨5, 10⟩, ⟨10, 10⟩⟩] ⟨0, 0, 10, 10⟩) ≠ 0 := by
    rw [hL]
    norm_num [gradientNorm, max_x, min_x, listMax, listMin, max_def, min_def]
  exact ⟨by norm_num [validRGB],
    C8_identical_endpoints _ _ _ _ (by simp) (by norm_num [validRGB]) hn⟩
